import Mathlib

/-!
Verification of the method-body editing core of the redex DEX optimizer,
as a shallow embedding of the sources under src/:

* src/opt/remove-builders/RemoveBuildersHelper.cpp — the builder-removal
  rewrite (fields_mapping, add_null_instr, treat_undefined_fields,
  method_updates, TaintedRegs/FieldsRegs meet, get_build_method,
  inline_build, remove_builder);
* src/libredex/Transform.h — MethodItemEntry types, InstructionIterator /
  InstructionIterable, the MethodTransformer scoped editor;
* src/test/unit/RegistersTest.cpp — the operand set/get round-trip test
  over the (external, spec 2.A) opcode catalog.

Identities that the C++ holds as interned pointers (DexField*, DexType*,
DexString*, DexMethod*, DexInstruction*) are embedded as natural-number
ids: interning makes pointer equality coincide with id equality.
unordered_map is embedded as an association list with distinct keys and
first-match lookup; boost::dynamic_bitset as the bits of a natural number.
-/

/-- The per-field value of the builder pass's dataflow state.  The C++
stores an int: a non-negative value is a register id, and the negative
`FieldOrRegStatus` enumerators are the three statuses.  The embedding keeps
the four cases as a sum; the int default 0 that `unordered_map::operator[]`
would insert corresponds to `reg 0` (see `alookupD`). -/
inductive FieldOrRegStatus where
  | UNDEFINED
  | DIFFERENT
  | OVERWRITTEN
  | reg (r : Nat)
deriving DecidableEq, Repr

/-- First-match lookup in an association list keyed by interned ids: the
embedding of `std::unordered_map::at` / `find` (a map holds each key once,
so first match is the match). -/
def alookup {α : Type} : List (Nat × α) → Nat → Option α
  | [], _ => none
  | p :: rest, k => if p.1 = k then some p.2 else alookup rest k

/-- The embedding of `unordered_map<DexField*, int>::operator[]` as a read:
a missing key value-initializes the mapped int to 0, i.e. register 0. -/
def alookupD (m : List (Nat × FieldOrRegStatus)) (k : Nat) : FieldOrRegStatus :=
  (alookup m k).getD (FieldOrRegStatus.reg 0)

/-- The dataflow state of the builder pass: field identity to
`FieldOrRegStatus` (RemoveBuildersHelper `FieldsRegs::field_to_reg`). -/
structure FieldsRegs where
  field_to_reg : List (Nat × FieldOrRegStatus)
deriving DecidableEq

/-- FieldsRegs::meet (RemoveBuildersHelper.cpp lines 207-213): for each of
this state's fields, when the two sides disagree the value becomes
DIFFERENT.  The loop writes only the value at the key it is visiting, and a
map holds each key once, so it is the pointwise map below. -/
def FieldsRegs.meet (self that : FieldsRegs) : FieldsRegs :=
  ⟨self.field_to_reg.map fun p =>
    (p.1, if alookup that.field_to_reg p.1 ≠ some p.2
          then FieldOrRegStatus.DIFFERENT else p.2)⟩

/-- The liveness lattice element: a bitset over register ids
(`boost::dynamic_bitset`), embedded as the bits of a Nat. -/
structure TaintedRegs where
  m_reg_set : Nat
deriving DecidableEq

/-- TaintedRegs::meet (lines 195-197): `m_reg_set |= that.m_reg_set`. -/
def TaintedRegs.meet (self that : TaintedRegs) : TaintedRegs :=
  ⟨self.m_reg_set ||| that.m_reg_set⟩

/-- TaintedRegs::operator== (lines 199-201): bitset equality. -/
def TaintedRegs.eqOp (self that : TaintedRegs) : Bool :=
  self.m_reg_set == that.m_reg_set

theorem alookup_mem {α : Type} {m : List (Nat × α)} {k : Nat} {v : α}
    (h : alookup m k = some v) : (k, v) ∈ m := by
  induction m with
  | nil => simp [alookup] at h
  | cons p rest ih =>
    obtain ⟨pk, pv⟩ := p
    rw [show alookup ((pk, pv) :: rest) k
        = if pk = k then some pv else alookup rest k from rfl] at h
    by_cases hk : pk = k
    · subst hk
      rw [if_pos rfl] at h
      cases h
      exact List.mem_cons_self _ _
    · rw [if_neg hk] at h
      exact List.mem_cons_of_mem _ (ih h)

theorem alookup_map_val {α β : Type} (g : Nat → α → β)
    (m : List (Nat × α)) (k : Nat) :
    alookup (m.map fun p => (p.1, g p.1 p.2)) k = (alookup m k).map (g k) := by
  induction m with
  | nil => rfl
  | cons p rest ih =>
    by_cases hk : p.1 = k
    · subst hk
      simp [alookup]
    · simp [alookup, hk, ih]

/-- C2: FieldsRegs::meet keeps exactly the fields of the left state (none
added or removed), and for a field both states carry it yields the common
value when the two sides agree and DIFFERENT otherwise. -/
theorem fieldsregs_meet_pointwise (a b : FieldsRegs) :
    ((FieldsRegs.meet a b).field_to_reg.map Prod.fst =
      a.field_to_reg.map Prod.fst) ∧
    (∀ f va vb, alookup a.field_to_reg f = some va →
      alookup b.field_to_reg f = some vb →
      alookup (FieldsRegs.meet a b).field_to_reg f =
        some (if va = vb then va else FieldOrRegStatus.DIFFERENT)) := by
  constructor
  · show (a.field_to_reg.map _).map Prod.fst = _
    rw [List.map_map]
    rfl
  · intro f va vb ha hb
    show alookup (a.field_to_reg.map fun p => (p.1,
      if alookup b.field_to_reg p.1 ≠ some p.2
      then FieldOrRegStatus.DIFFERENT else p.2)) f = _
    rw [alookup_map_val (fun k v =>
      if alookup b.field_to_reg k ≠ some v then FieldOrRegStatus.DIFFERENT else v)]
    rw [ha]
    show some (if alookup b.field_to_reg f ≠ some va
      then FieldOrRegStatus.DIFFERENT else va) = _
    rw [hb]
    rcases eq_or_ne va vb with hv | hv
    · subst hv
      simp
    · simp [hv, Ne.symm hv]

/-- C6: TaintedRegs::meet is set union of the two register bitsets (bit r
of the meet is set exactly when it is set on either side), and
TaintedRegs::operator== holds exactly when the two bitsets are equal. -/
theorem taintedregs_meet_union_eq (a b : TaintedRegs) :
    (∀ r, Nat.testBit (TaintedRegs.meet a b).m_reg_set r =
      (Nat.testBit a.m_reg_set r || Nat.testBit b.m_reg_set r)) ∧
    (TaintedRegs.eqOp a b = true ↔ a = b) := by
  constructor
  · intro r
    show Nat.testBit (a.m_reg_set ||| b.m_reg_set) r = _
    exact Nat.testBit_or a.m_reg_set b.m_reg_set r
  · constructor
    · intro h
      have : a.m_reg_set = b.m_reg_set := by
        simpa [TaintedRegs.eqOp] using h
      cases a
      cases b
      simp_all
    · intro h
      subst h
      simp [TaintedRegs.eqOp]

/-- The opcode families the builder pass distinguishes, via the DexUtil
predicates it calls: is_iput, is_iget, is_invoke, the OPCODE_NEW_INSTANCE
and OPCODE_CONST_4 cases, and everything else. -/
inductive OpKind where
  | iputK
  | igetK
  | invokeK
  | newInstanceK
  | constK
  | otherK
deriving DecidableEq, Repr

/-- A decoded DexInstruction, holding exactly what the embedded functions
read of it: the opcode family, destination presence / id / wideness,
source register list, the interned referents (field with its declaring
class, type for new-instance, method with its class and name for invokes),
the immediate literal, and the operand bit widths the external catalog
(spec 2.A) fixes per opcode. -/
structure Insn where
  kind : OpKind
  hasDest : Bool
  dest : Nat
  destWide : Bool
  destWidth : Nat
  srcs : List Nat
  srcWidths : List Nat
  fieldId : Nat
  fieldClassId : Nat
  typeId : Nat
  methodId : Nat
  methodClassId : Nat
  methodNameId : Nat
  literal : Int
deriving DecidableEq, Repr

/-- Insert-or-update of a map entry: `fregs->field_to_reg[field] = current`. -/
def aupd {α : Type} : List (Nat × α) → Nat → α → List (Nat × α)
  | [], k, v => [(k, v)]
  | p :: rest, k, v => if p.1 = k then (k, v) :: rest else p :: aupd rest k v

/-- The first phase of fields_mapping (RemoveBuildersHelper.cpp lines
26-41): when the instruction writes a destination register, every field
tracked at that register — and at the following register when the
destination is wide — becomes OVERWRITTEN. -/
def overwrittenPass (insn : Insn) (m : List (Nat × FieldOrRegStatus)) :
    List (Nat × FieldOrRegStatus) :=
  if insn.hasDest = true then
    m.map fun p =>
      (p.1,
        if p.2 = FieldOrRegStatus.reg insn.dest ∨
           (insn.destWide = true ∧ p.2 = FieldOrRegStatus.reg (insn.dest + 1))
        then FieldOrRegStatus.OVERWRITTEN else p.2)
  else m

/-- fields_mapping (RemoveBuildersHelper.cpp lines 22-52), the transfer
function of both builder analyses: the overwrite phase above, then an iput
(in setter mode) or iget (in getter mode) of a field of the builder class
records the source (resp. destination) register for that field. -/
def fields_mapping (insn : Insn) (fregs : FieldsRegs) (builderType : Nat)
    (is_setter : Bool) : FieldsRegs :=
  if (is_setter = true ∧ insn.kind = OpKind.iputK) ∨
     (is_setter = false ∧ insn.kind = OpKind.igetK) then
    if insn.fieldClassId = builderType then
      ⟨aupd (overwrittenPass insn fregs.field_to_reg) insn.fieldId
        (FieldOrRegStatus.reg
          (if is_setter = true then insn.srcs.getD 0 0 else insn.dest))⟩
    else ⟨overwrittenPass insn fregs.field_to_reg⟩
  else ⟨overwrittenPass insn fregs.field_to_reg⟩

theorem alookup_aupd_self {α : Type} (m : List (Nat × α)) (k : Nat) (v : α) :
    alookup (aupd m k v) k = some v := by
  induction m with
  | nil => simp [aupd, alookup]
  | cons p rest ih =>
    by_cases hk : p.1 = k
    · simp [aupd, hk, alookup]
    · rw [show aupd (p :: rest) k v = if p.1 = k then (k, v) :: rest
          else p :: aupd rest k v from rfl, if_neg hk]
      rw [show alookup (p :: aupd rest k v) k
          = if p.1 = k then some p.2 else alookup (aupd rest k v) k from rfl, if_neg hk]
      exact ih

theorem alookup_aupd_ne {α : Type} (m : List (Nat × α)) (k g : Nat) (v : α)
    (hne : g ≠ k) : alookup (aupd m k v) g = alookup m g := by
  have hkg : ¬ k = g := fun h => hne h.symm
  induction m with
  | nil => simp [aupd, alookup, hkg]
  | cons p rest ih =>
    by_cases hk : p.1 = k
    · have hpg : ¬ p.1 = g := fun h => hne (h.symm.trans hk)
      rw [show aupd (p :: rest) k v = if p.1 = k then (k, v) :: rest
          else p :: aupd rest k v from rfl, if_pos hk]
      rw [show alookup ((k, v) :: rest) g
          = if k = g then some v else alookup rest g from rfl, if_neg hkg]
      rw [show alookup (p :: rest) g
          = if p.1 = g then some p.2 else alookup rest g from rfl, if_neg hpg]
    · rw [show aupd (p :: rest) k v = if p.1 = k then (k, v) :: rest
          else p :: aupd rest k v from rfl, if_neg hk]
      rw [show alookup (p :: aupd rest k v) g
          = if p.1 = g then some p.2 else alookup (aupd rest k v) g from rfl]
      rw [show alookup (p :: rest) g
          = if p.1 = g then some p.2 else alookup rest g from rfl]
      rw [ih]

theorem alookup_overwrittenPass_hit (insn : Insn)
    (m : List (Nat × FieldOrRegStatus)) (f : Nat)
    (hd : insn.hasDest = true)
    (hv : alookup m f = some (FieldOrRegStatus.reg insn.dest) ∨
      (insn.destWide = true ∧
        alookup m f = some (FieldOrRegStatus.reg (insn.dest + 1)))) :
    alookup (overwrittenPass insn m) f = some FieldOrRegStatus.OVERWRITTEN := by
  unfold overwrittenPass
  rw [if_pos hd, alookup_map_val (fun _ v =>
    if v = FieldOrRegStatus.reg insn.dest ∨
       (insn.destWide = true ∧ v = FieldOrRegStatus.reg (insn.dest + 1))
    then FieldOrRegStatus.OVERWRITTEN else v)]
  rcases hv with h | ⟨hw, h⟩
  · rw [h]
    simp
  · rw [h]
    simp [hw]

/-- C10: in the builder pass's transfer function fields_mapping, an
instruction writing destination register d sets every builder field tracked
at d — and, for a wide destination, at d+1 — to OVERWRITTEN, except that
the subsequent iput/iget tracking update wins for its own field: in getter
mode, an iget of a builder field into d leaves that field tracked at d
rather than OVERWRITTEN. -/
theorem fields_mapping_overwrite_then_track
    (insn : Insn) (fregs : FieldsRegs) (builderType : Nat) (is_setter : Bool)
    (f : Nat) :
    (insn.hasDest = true →
      (alookup fregs.field_to_reg f = some (FieldOrRegStatus.reg insn.dest) ∨
        (insn.destWide = true ∧
          alookup fregs.field_to_reg f =
            some (FieldOrRegStatus.reg (insn.dest + 1)))) →
      ¬ ((((is_setter = true ∧ insn.kind = OpKind.iputK) ∨
           (is_setter = false ∧ insn.kind = OpKind.igetK)) ∧
          insn.fieldClassId = builderType) ∧ insn.fieldId = f) →
      alookup (fields_mapping insn fregs builderType is_setter).field_to_reg f =
        some FieldOrRegStatus.OVERWRITTEN) ∧
    (is_setter = false → insn.kind = OpKind.igetK →
      insn.fieldClassId = builderType → insn.fieldId = f →
      alookup (fields_mapping insn fregs builderType is_setter).field_to_reg f =
        some (FieldOrRegStatus.reg insn.dest)) := by
  constructor
  · intro hd hv hexcl
    have hhit := alookup_overwrittenPass_hit insn fregs.field_to_reg f hd hv
    unfold fields_mapping
    by_cases hT : (is_setter = true ∧ insn.kind = OpKind.iputK) ∨
        (is_setter = false ∧ insn.kind = OpKind.igetK)
    · rw [if_pos hT]
      by_cases hC : insn.fieldClassId = builderType
      · rw [if_pos hC]
        have hf : insn.fieldId ≠ f := fun h => hexcl ⟨⟨hT, hC⟩, h⟩
        show alookup (aupd _ insn.fieldId _) f = _
        rw [alookup_aupd_ne _ _ _ _ (fun h => hf h.symm)]
        exact hhit
      · rw [if_neg hC]
        exact hhit
    · rw [if_neg hT]
      exact hhit
  · intro hs hk hC hf
    unfold fields_mapping
    have hT : (is_setter = true ∧ insn.kind = OpKind.iputK) ∨
        (is_setter = false ∧ insn.kind = OpKind.igetK) := Or.inr ⟨hs, hk⟩
    rw [if_pos hT, if_pos hC]
    show alookup (aupd _ insn.fieldId _) f = _
    subst hf
    rw [alookup_aupd_self]
    simp [hs]

/-- A method body as the builder pass sees it: the ribbon's instruction
items (each with a stable identity standing for its DexInstruction
pointer, in ribbon order), plus registers_size and ins_size of the DexCode.
The pass's per-item loop skips every non-opcode ribbon item
(`mie.type != MFLOW_OPCODE` continues), so only the instruction items are
carried here. -/
structure MethodCode where
  insns : List (Nat × Insn)
  registers_size : Nat
  ins_size : Nat
deriving DecidableEq, Repr

/-- A DexMethod as the pass sees it: `method->get_code()` may be null. -/
structure DexMethodM where
  code : Option MethodCode
deriving DecidableEq, Repr

/-- Interned name id of the string "build" (DexString::make_string). -/
def buildNameId : Nat := 0

/-- Interned name id of the string "<init>". -/
def initNameId : Nat := 1

/-- A DexMethod reference: interned identity plus interned name. -/
structure MethodRef where
  id : Nat
  nameId : Nat
deriving DecidableEq, Repr

/-- A DexClass as the pass reads it: its type and its virtual methods. -/
structure DexClassM where
  typeId : Nat
  vmethods : List MethodRef
deriving DecidableEq, Repr

/-- Modelled from the spec: MethodTransform::enlarge_regs is only declared
in src/libredex/Transform.h; its definition is not among the repository
files.  Spec 4.7: parameter registers sit at the top of the register file
and are renumbered upward by `newregs - oldregs`; non-parameter ids are
unchanged.  A register id r is a parameter reference when
`oldregs - ins <= r`. -/
def shiftParamReg (oldregs ins delta r : Nat) : Nat :=
  if oldregs - ins ≤ r then r + delta else r

/-- Modelled from the spec (4.7): the per-instruction operand rewrite of
enlarge_regs. -/
def enlargeInsn (oldregs ins delta : Nat) (insn : Insn) : Insn :=
  { insn with
    dest := if insn.hasDest = true
            then shiftParamReg oldregs ins delta insn.dest else insn.dest,
    srcs := insn.srcs.map (shiftParamReg oldregs ins delta) }

/-- Modelled from the spec (4.7): enlarge_regs "fails if any operand field
cannot encode the new id"; an operand field of bit width w encodes ids
below 2 ^ w (the widths come from the external catalog, spec 2.A). -/
def insnEncodable (insn : Insn) : Bool :=
  (! insn.hasDest || decide (insn.dest < 2 ^ insn.destWidth)) &&
  (List.zip insn.srcs insn.srcWidths).all fun p => decide (p.1 < 2 ^ p.2)

/-- Modelled from the spec: MethodTransform::enlarge_regs (spec 4.7, 7):
renumber the parameter registers upward, set the register count, and fail
— leaving the method unchanged, "ribbon state unchanged" — when an operand
field cannot encode a renumbered id. -/
def enlarge_regs (code : MethodCode) (newregs : Nat) : Option MethodCode :=
  let oldregs := code.registers_size
  let delta := newregs - oldregs
  let insns1 := code.insns.map fun p =>
    (p.1, enlargeInsn oldregs code.ins_size delta p.2)
  if insns1.all fun p => insnEncodable p.2 then
    some { insns := insns1, registers_size := newregs, ins_size := code.ins_size }
  else none

/-- A fresh DexInstruction(OPCODE_CONST_4) after set_dest / set_literal:
no sources, 4-bit destination field, null referents. -/
def mkConst4 (dst : Nat) (lit : Int) : Insn :=
  { kind := OpKind.constK, hasDest := true, dest := dst, destWide := false,
    destWidth := 4, srcs := [], srcWidths := [], fieldId := 0,
    fieldClassId := 0, typeId := 0, methodId := 0, methodClassId := 0,
    methodNameId := 0, literal := lit }

/-- An instruction identity not used by any instruction of the body (a
freshly allocated DexInstruction is distinct from every existing one). -/
def freshId (code : MethodCode) : Nat :=
  (code.insns.map Prod.fst).foldr (fun a b => max a b) 0 + 1

/-- `transform->insert_after(nullptr, insns)` with a single instruction:
position nullptr means the head of the ribbon (Transform.h line 302). -/
def insert_front (code : MethodCode) (insn : Insn) : MethodCode :=
  { code with insns := (freshId code, insn) :: code.insns }

/-- add_null_instr (RemoveBuildersHelper.cpp lines 97-125): grow the
register file by one; on success initialize the freed last non-input
register (old registers_size minus ins_size) to null with a const-4
inserted at the beginning of the body. -/
def add_null_instr (code : MethodCode) : Option MethodCode :=
  let oldregs := code.registers_size
  let ins := code.ins_size
  let newregs := oldregs + 1
  match enlarge_regs code newregs with
  | none => none
  | some code1 => some (insert_front code1 (mkConst4 (oldregs - ins) 0))

/-- One planned operand rewrite: (instruction identity, source index, new
register) — the tuples of ReplacementsList. -/
abbrev Replacement := Nat × Nat × Nat

/-- The per-entry shift of treat_undefined_fields (lines 151-157): a
planned replacement register at or above the old non-input register count
moves up by one. -/
def shiftReplacement (non_input_regs : Nat) (r : Replacement) : Replacement :=
  if non_input_regs ≤ r.2.2 then (r.1, r.2.1, r.2.2 + 1) else r

/-- treat_undefined_fields (RemoveBuildersHelper.cpp lines 130-168): when
undefined replacements exist, record the old non-input register count,
add the null register (failing if that fails), shift the planned
replacement registers that the widening moved, and append a replacement to
the null register for every undefined use. -/
def treat_undefined_fields (code : MethodCode)
    (undefined_replacements : List (Nat × Nat))
    (replacements : List Replacement) :
    Option (MethodCode × List Replacement) :=
  if undefined_replacements.length > 0 then
    let non_input_regs := code.registers_size - code.ins_size
    match add_null_instr code with
    | none => none
    | some code1 =>
        some (code1,
          replacements.map (shiftReplacement non_input_regs) ++
            undefined_replacements.map fun u => (u.1, u.2, non_input_regs))
  else
    some (code, replacements)

/-- `transform->remove_opcode(insn)`: delete the instruction item. -/
def remove_opcode (code : MethodCode) (id : Nat) : MethodCode :=
  { code with insns := code.insns.filter fun p => p.1 ≠ id }

/-- `insn->set_src(index, new_reg)` on one instruction record. -/
def setSrcAt (insn : Insn) (idx reg : Nat) : Insn :=
  { insn with srcs := insn.srcs.set idx reg }

/-- set_src applied to the instruction with the given identity (the C++
mutates the DexInstruction the pointer names; every other instruction is
untouched). -/
def set_src (code : MethodCode) (id idx reg : Nat) : MethodCode :=
  { code with insns := code.insns.map fun p =>
      (p.1, if p.1 = id then setSrcAt p.2 idx reg else p.2) }

/-- method_updates (RemoveBuildersHelper.cpp lines 170-189): apply all
deletions, then all source-operand replacements, in order. -/
def method_updates (code : MethodCode) (deletes : List Nat)
    (replacements : List Replacement) : MethodCode :=
  replacements.foldl (fun c r => set_src c r.1 r.2.1 r.2.2)
    (deletes.foldl remove_opcode code)

/-- The instructions remove_builder deletes (lines 303-324): an iput/iget
of a field of the builder class, a new-instance of the builder class
(type_class(cls) == builder), or an invoke of a builder method named
`<init>`. -/
def is_delete_insn (insn : Insn) (builder : DexClassM) : Bool :=
  ((insn.kind == OpKind.iputK || insn.kind == OpKind.igetK) &&
     insn.fieldClassId == builder.typeId) ||
  (insn.kind == OpKind.newInstanceK && insn.typeId == builder.typeId) ||
  (insn.kind == OpKind.invokeK && insn.methodClassId == builder.typeId &&
     insn.methodNameId == initNameId)

/-- The inner loop of remove_builder over the getter map of one source
operand (lines 333-355): for each field the getter analysis tracks at the
operand's register, consult the setter analysis — UNDEFINED queues an
undefined replacement, DIFFERENT or OVERWRITTEN fails the rewrite, and a
register queues an ordinary replacement. -/
def scan_pairs (insnId idx current_src : Nat) (fsetter : FieldsRegs) :
    List (Nat × FieldOrRegStatus) →
    Option (List (Nat × Nat) × List Replacement)
  | [] => some ([], [])
  | p :: rest =>
    if p.2 = FieldOrRegStatus.reg current_src then
      match alookupD fsetter.field_to_reg p.1 with
      | FieldOrRegStatus.UNDEFINED =>
          (scan_pairs insnId idx current_src fsetter rest).map
            fun ur => ((insnId, idx) :: ur.1, ur.2)
      | FieldOrRegStatus.DIFFERENT => none
      | FieldOrRegStatus.OVERWRITTEN => none
      | FieldOrRegStatus.reg r =>
          (scan_pairs insnId idx current_src fsetter rest).map
            fun ur => (ur.1, (insnId, idx, r) :: ur.2)
    else scan_pairs insnId idx current_src fsetter rest

/-- The loop of remove_builder over the source indices of one instruction
(lines 330-356). -/
def scan_idx_list (insnId : Nat) (insn : Insn) (fsetter fgetter : FieldsRegs) :
    List Nat → Option (List (Nat × Nat) × List Replacement)
  | [] => some ([], [])
  | idx :: rest =>
    match scan_pairs insnId idx (insn.srcs.getD idx 0) fsetter
        fgetter.field_to_reg with
    | none => none
    | some ur1 =>
      match scan_idx_list insnId insn fsetter fgetter rest with
      | none => none
      | some ur2 => some (ur1.1 ++ ur2.1, ur1.2 ++ ur2.2)

/-- The source scan of one non-deleted instruction (guarded by
`insn->srcs_size()`, line 329). -/
def scan_insn (insnId : Nat) (insn : Insn) (fsetter fgetter : FieldsRegs) :
    Option (List (Nat × Nat) × List Replacement) :=
  if insn.srcs.length > 0 then
    scan_idx_list insnId insn fsetter fgetter (List.range insn.srcs.length)
  else some ([], [])

/-- The collection loop of remove_builder (lines 294-359) over the
instruction items, producing the deletes, the undefined replacements and
the ordinary replacements, or failing.  The source walks the CFG's blocks
(postorder), which partition the ribbon (spec 3.3); the collection is
embedded in ribbon order, and every property proved of it is insensitive
to the block order. -/
def collect (builder : DexClassM) (fsetters fgetters : Nat → FieldsRegs) :
    List (Nat × Insn) →
    Option (List Nat × List (Nat × Nat) × List Replacement)
  | [] => some ([], [], [])
  | (i, insn) :: rest =>
    if is_delete_insn insn builder = true then
      (collect builder fsetters fgetters rest).map
        fun dur => (i :: dur.1, dur.2.1, dur.2.2)
    else
      match scan_insn i insn (fsetters i) (fgetters i) with
      | none => none
      | some ur =>
        match collect builder fsetters fgetters rest with
        | none => none
        | some dur => some (dur.1, ur.1 ++ dur.2.1, ur.2 ++ dur.2.2)

/-- remove_builder (RemoveBuildersHelper.cpp lines 275-367).  The fixpoint
driver behind fields_setters / fields_getters lives in Dataflow.h, outside
the repository files; per spec 3.4 it returns one state per instruction,
so the two analysis results are taken as inputs (`fsetters` = fields_in,
`fgetters` = fields_out, both keyed by instruction identity).  The result
pairs the C++ return value with the method state the run leaves behind. -/
def remove_builder (method : DexMethodM) (builder : DexClassM)
    (buildee : DexClassM) (fsetters fgetters : Nat → FieldsRegs) :
    Bool × DexMethodM :=
  match method.code with
  | none => (false, method)
  | some code =>
    match collect builder fsetters fgetters code.insns with
    | none => (false, method)
    | some dur =>
      match treat_undefined_fields code dur.2.1 dur.2.2 with
      | none => (false, method)
      | some cr =>
        (true, ⟨some (method_updates cr.1 dur.1 cr.2)⟩)

/-- get_build_method (RemoveBuildersHelper.cpp lines 225-234): the first
virtual method whose interned name is "build". -/
def get_build_method (vmethods : List MethodRef) : Option MethodRef :=
  vmethods.find? fun m => m.nameId == buildNameId

/-- The collection loop of inline_build (lines 245-254): the invoke
instructions whose interned target equals the builder's build method
(when the builder has none, no invoke matches the null pointer). -/
def collect_inlinables (build_method : Option MethodRef)
    (insns : List (Nat × Insn)) : List Nat :=
  (insns.filter fun p =>
    p.2.kind == OpKind.invokeK &&
      match build_method with
      | some bm => p.2.methodId == bm.id
      | none => false).map Prod.fst

/-- The inlining loop of inline_build (lines 263-270): inline each
collected invoke, returning false as soon as one inline fails.
MethodTransform::inline_16regs is only declared in src/libredex/Transform.h
(defined outside the repository files), so the inliner is an input. -/
def inline_loop (inliner : MethodCode → Nat → Bool × MethodCode) :
    MethodCode → List Nat → Bool × MethodCode
  | code, [] => (true, code)
  | code, i :: rest =>
    if (inliner code i).1 = true then inline_loop inliner (inliner code i).2 rest
    else (false, (inliner code i).2)

/-- inline_build (RemoveBuildersHelper.cpp lines 236-273): refuse when the
method has a null body or more than one invoke of the builder's build
method; otherwise inline the collected invokes. -/
def inline_build (method : DexMethodM) (builder : DexClassM)
    (inliner : MethodCode → Nat → Bool × MethodCode) : Bool × DexMethodM :=
  match method.code with
  | none => (false, method)
  | some code =>
    if (collect_inlinables (get_build_method builder.vmethods)
        code.insns).length > 1
    then (false, method)
    else
      ((inline_loop inliner code
          (collect_inlinables (get_build_method builder.vmethods) code.insns)).1,
        ⟨some (inline_loop inliner code
          (collect_inlinables (get_build_method builder.vmethods) code.insns)).2⟩)

/-- C1: when remove_builder returns false the method is left exactly as it
was — in particular no instruction is deleted, no source operand is
rewritten and the register file does not grow.  All mutation sits in
treat_undefined_fields / method_updates behind every check, and a failing
enlarge_regs leaves the state unchanged (spec 4.7, 7). -/
theorem remove_builder_false_unchanged
    (method : DexMethodM) (builder buildee : DexClassM)
    (fsetters fgetters : Nat → FieldsRegs)
    (h : (remove_builder method builder buildee fsetters fgetters).1 = false) :
    (remove_builder method builder buildee fsetters fgetters).2 = method := by
  cases hm : method.code with
  | none => simp [remove_builder, hm]
  | some code =>
    cases hc : collect builder fsetters fgetters code.insns with
    | none => simp [remove_builder, hm, hc]
    | some dur =>
      cases ht : treat_undefined_fields code dur.2.1 dur.2.2 with
      | none => simp [remove_builder, hm, hc, ht]
      | some cr =>
        exfalso
        simp [remove_builder, hm, hc, ht] at h

theorem remove_builder_false_unchanged_witness :
    (remove_builder ⟨none⟩ ⟨0, []⟩ ⟨0, []⟩ (fun _ => ⟨[]⟩)
      (fun _ => ⟨[]⟩)).2 = ⟨none⟩ :=
  remove_builder_false_unchanged ⟨none⟩ ⟨0, []⟩ ⟨0, []⟩ (fun _ => ⟨[]⟩)
    (fun _ => ⟨[]⟩) rfl

/-- C5: on a method with a body, more than one invoke of the builder's
build method makes inline_build return false with nothing inlined; with no
such invoke it returns true; with exactly one it inlines it and returns
the inliner's verdict and resulting body. -/
theorem inline_build_one_builder_restriction
    (method : DexMethodM) (builder : DexClassM)
    (inliner : MethodCode → Nat → Bool × MethodCode) (code : MethodCode)
    (hcode : method.code = some code) :
    ((collect_inlinables (get_build_method builder.vmethods)
        code.insns).length > 1 →
      inline_build method builder inliner = (false, method)) ∧
    (collect_inlinables (get_build_method builder.vmethods) code.insns = [] →
      inline_build method builder inliner = (true, ⟨some code⟩)) ∧
    (∀ i, collect_inlinables (get_build_method builder.vmethods) code.insns
        = [i] →
      inline_build method builder inliner =
        ((inliner code i).1, ⟨some (inliner code i).2⟩)) := by
  refine ⟨?_, ?_, ?_⟩
  · intro hgt
    simp [inline_build, hcode, hgt]
  · intro hnil
    simp [inline_build, hcode, hnil, inline_loop]
  · intro i hone
    have hloop : inline_loop inliner code [i]
        = ((inliner code i).1, (inliner code i).2) := by
      cases hb : (inliner code i).1 <;> simp [inline_loop, hb]
    simp [inline_build, hcode, hone, hloop]

def c5Invoke : Insn :=
  { kind := OpKind.invokeK, hasDest := false, dest := 0, destWide := false,
    destWidth := 8, srcs := [0], srcWidths := [8], fieldId := 0,
    fieldClassId := 0, typeId := 0, methodId := 7, methodClassId := 3,
    methodNameId := buildNameId, literal := 0 }

def c5Builder : DexClassM := ⟨3, [⟨7, buildNameId⟩]⟩

def c5Code : MethodCode := ⟨[(0, c5Invoke), (1, c5Invoke)], 2, 1⟩

theorem inline_build_one_builder_restriction_witness :
    inline_build ⟨some c5Code⟩ c5Builder (fun c _ => (true, c))
      = (false, ⟨some c5Code⟩) :=
  (inline_build_one_builder_restriction ⟨some c5Code⟩ c5Builder
    (fun c _ => (true, c)) c5Code rfl).1 (by decide)

theorem scan_pairs_none_of_different (insnId idx cs : Nat)
    (fsetter : FieldsRegs) (pairs : List (Nat × FieldOrRegStatus)) (f : Nat)
    (hmem : (f, FieldOrRegStatus.reg cs) ∈ pairs)
    (hdiff : alookupD fsetter.field_to_reg f = FieldOrRegStatus.DIFFERENT) :
    scan_pairs insnId idx cs fsetter pairs = none := by
  induction pairs with
  | nil => cases hmem
  | cons p rest ih =>
    rcases List.mem_cons.mp hmem with hp | hp
    · have h2 : p.2 = FieldOrRegStatus.reg cs := by rw [← hp]
      have h1 : p.1 = f := by rw [← hp]
      simp only [scan_pairs]
      rw [if_pos h2, h1, hdiff]
    · simp only [scan_pairs]
      by_cases hc : p.2 = FieldOrRegStatus.reg cs
      · rw [if_pos hc]
        cases hval : alookupD fsetter.field_to_reg p.1 with
        | UNDEFINED => simp [ih hp]
        | DIFFERENT => rfl
        | OVERWRITTEN => rfl
        | reg r => simp [ih hp]
      · rw [if_neg hc]
        exact ih hp

theorem scan_idx_list_none (insnId : Nat) (insn : Insn)
    (fsetter fgetter : FieldsRegs) (idxs : List Nat) (idx : Nat)
    (hmem : idx ∈ idxs)
    (hfail : scan_pairs insnId idx (insn.srcs.getD idx 0) fsetter
      fgetter.field_to_reg = none) :
    scan_idx_list insnId insn fsetter fgetter idxs = none := by
  induction idxs with
  | nil => cases hmem
  | cons j rest ih =>
    rcases List.mem_cons.mp hmem with hj | hj
    · subst hj
      simp only [scan_idx_list]
      rw [hfail]
    · simp only [scan_idx_list]
      cases h1 : scan_pairs insnId j (insn.srcs.getD j 0) fsetter
          fgetter.field_to_reg with
      | none => rfl
      | some ur1 => rw [ih hj]

theorem scan_insn_none (insnId : Nat) (insn : Insn)
    (fsetter fgetter : FieldsRegs) (idx : Nat)
    (hidx : idx < insn.srcs.length)
    (hfail : scan_pairs insnId idx (insn.srcs.getD idx 0) fsetter
      fgetter.field_to_reg = none) :
    scan_insn insnId insn fsetter fgetter = none := by
  unfold scan_insn
  rw [if_pos (Nat.lt_of_le_of_lt (Nat.zero_le idx) hidx)]
  exact scan_idx_list_none insnId insn fsetter fgetter _ idx
    (List.mem_range.mpr hidx) hfail

theorem collect_none (builder : DexClassM) (fsetters fgetters : Nat → FieldsRegs)
    (l : List (Nat × Insn)) (i : Nat) (insn : Insn)
    (hmem : (i, insn) ∈ l)
    (hnotdel : is_delete_insn insn builder = false)
    (hfail : scan_insn i insn (fsetters i) (fgetters i) = none) :
    collect builder fsetters fgetters l = none := by
  induction l with
  | nil => cases hmem
  | cons p rest ih =>
    obtain ⟨j, w⟩ := p
    rcases List.mem_cons.mp hmem with hp | hp
    · have hji : j = i := congrArg Prod.fst hp.symm
      have hwi : w = insn := congrArg Prod.snd hp.symm
      subst hji
      subst hwi
      simp only [collect]
      rw [if_neg (by rw [hnotdel]; exact Bool.false_ne_true), hfail]
    · simp only [collect]
      by_cases hd : is_delete_insn w builder = true
      · rw [if_pos hd, ih hp]
        rfl
      · rw [if_neg hd]
        cases hs : scan_insn j w (fsetters j) (fgetters j) with
        | none => rfl
        | some ur => rw [ih hp]

/-- C4 (amended): if some instruction that the pass does not collect for
deletion (it is not a builder-field iput/iget, a builder new-instance, or a
builder `<init>` invoke) has a source register equal to the register the
getter analysis tracks for a builder field at that instruction, and the
setter analysis maps that field to DIFFERENT there, then remove_builder
returns false.  The deletion proviso is forced by the `continue` at lines
307/315/322: a deleted instruction's sources are never scanned (see the
counterexample). -/
theorem remove_builder_fails_on_different_setter
    (method : DexMethodM) (builder buildee : DexClassM)
    (fsetters fgetters : Nat → FieldsRegs) (code : MethodCode)
    (i idx f : Nat) (insn : Insn)
    (hcode : method.code = some code)
    (hmem : (i, insn) ∈ code.insns)
    (hnotdel : is_delete_insn insn builder = false)
    (hidx : idx < insn.srcs.length)
    (hout : alookup (fgetters i).field_to_reg f
      = some (FieldOrRegStatus.reg (insn.srcs.getD idx 0)))
    (hin : alookup (fsetters i).field_to_reg f
      = some FieldOrRegStatus.DIFFERENT) :
    (remove_builder method builder buildee fsetters fgetters).1 = false := by
  have hdiffD : alookupD (fsetters i).field_to_reg f
      = FieldOrRegStatus.DIFFERENT := by
    simp [alookupD, hin]
  have hsp := scan_pairs_none_of_different i idx (insn.srcs.getD idx 0)
    (fsetters i) (fgetters i).field_to_reg f (alookup_mem hout) hdiffD
  have hsi := scan_insn_none i insn (fsetters i) (fgetters i) idx hidx hsp
  have hcol := collect_none builder fsetters fgetters code.insns i insn
    hmem hnotdel hsi
  simp [remove_builder, hcode, hcol]

def c4Iput : Insn :=
  { kind := OpKind.iputK, hasDest := false, dest := 0, destWide := false,
    destWidth := 8, srcs := [1], srcWidths := [8], fieldId := 5,
    fieldClassId := 9, typeId := 0, methodId := 0, methodClassId := 0,
    methodNameId := 0, literal := 0 }

def c4Builder : DexClassM := ⟨9, []⟩

def c4Method : DexMethodM := ⟨some ⟨[(0, c4Iput)], 2, 0⟩⟩

def c4Fsetters : Nat → FieldsRegs := fun _ => ⟨[(5, FieldOrRegStatus.DIFFERENT)]⟩

def c4Fgetters : Nat → FieldsRegs := fun _ => ⟨[(5, FieldOrRegStatus.reg 1)]⟩

/-- C4 counterexample: a method whose only instruction is an iput of
builder field 5 from source register 1, with the getter analysis tracking
field 5 at register 1 and the setter analysis mapping field 5 to
DIFFERENT.  The claim's premises hold, yet remove_builder returns true:
the instruction is collected for deletion and its sources are never
scanned, so the DIFFERENT status is never consulted. -/
theorem remove_builder_different_counterexample :
    alookup (c4Fgetters 0).field_to_reg 5
      = some (FieldOrRegStatus.reg (c4Iput.srcs.getD 0 0)) ∧
    alookup (c4Fsetters 0).field_to_reg 5 = some FieldOrRegStatus.DIFFERENT ∧
    (remove_builder c4Method c4Builder c4Builder
      c4Fsetters c4Fgetters).1 = true := by
  refine ⟨by decide, by decide, by decide⟩

def c4Other : Insn :=
  { kind := OpKind.otherK, hasDest := false, dest := 0, destWide := false,
    destWidth := 8, srcs := [1], srcWidths := [8], fieldId := 0,
    fieldClassId := 0, typeId := 0, methodId := 0, methodClassId := 0,
    methodNameId := 0, literal := 0 }

def c4MethodW : DexMethodM := ⟨some ⟨[(0, c4Other)], 2, 0⟩⟩

theorem remove_builder_fails_on_different_setter_witness :
    (remove_builder c4MethodW c4Builder c4Builder
      c4Fsetters c4Fgetters).1 = false :=
  remove_builder_fails_on_different_setter c4MethodW c4Builder c4Builder
    c4Fsetters c4Fgetters ⟨[(0, c4Other)], 2, 0⟩ 0 0 5 c4Other rfl
    (by decide) (by decide) (by decide) (by decide) (by decide)

/-- Transform.h lines 67-98: the ribbon item kinds (MethodItemType). -/
inductive MethodItemType where
  | MFLOW_TRY
  | MFLOW_CATCH
  | MFLOW_OPCODE
  | MFLOW_TARGET
  | MFLOW_DEBUG
  | MFLOW_POSITION
  | MFLOW_FALLTHROUGH
deriving DecidableEq, Repr

/-- A ribbon item (MethodItemEntry, Transform.h lines 109-154): its kind
and a stand-in identity for the live union payload. -/
structure MethodItemEntry where
  type : MethodItemType
  payload : Nat
deriving DecidableEq, Repr

/-- The skip-ahead shared by InstructionIterable's constructor (Transform.h
lines 412-420) and InstructionIterator::operator++ (lines 376-382): from
position i, the first position at or after i holding an MFLOW_OPCODE item,
or the end position. -/
def seekOpcode (l : List MethodItemEntry) (i : Nat) : Nat :=
  if h : i < l.length then
    if (l.get ⟨i, h⟩).type = MethodItemType.MFLOW_OPCODE then i
    else seekOpcode l (i + 1)
  else l.length
termination_by l.length - i

theorem seekOpcode_ge (l : List MethodItemEntry) (i : Nat)
    (h : i ≤ l.length) : i ≤ seekOpcode l i := by
  unfold seekOpcode
  split
  · rename_i hlt
    split
    · exact Nat.le_refl i
    · exact Nat.le_trans (Nat.le_succ i) (seekOpcode_ge l (i + 1) hlt)
  · exact h
termination_by l.length - i

/-- The instructions-only iteration from an iterator position that is
either an opcode position or the end: dereference the current item, apply
operator++ (advance one, then skip non-opcode items), repeat until end().
The result lists every item the iteration dereferences, in order. -/
def instructionItemsFrom (l : List MethodItemEntry) (i : Nat) :
    List MethodItemEntry :=
  if h : i < l.length then
    l.get ⟨i, h⟩ :: instructionItemsFrom l (seekOpcode l (i + 1))
  else []
termination_by l.length - i
decreasing_by
  have := seekOpcode_ge l (i + 1) h
  omega

/-- InstructionIterable(mt) iterated from begin() to end(): begin() skips
leading non-opcode items, then the iteration above runs. -/
def instructionItems (l : List MethodItemEntry) : List MethodItemEntry :=
  instructionItemsFrom l (seekOpcode l 0)

theorem instructionItemsFrom_seek (l : List MethodItemEntry) (i : Nat) :
    instructionItemsFrom l (seekOpcode l i)
      = (l.drop i).filter fun it => it.type == MethodItemType.MFLOW_OPCODE := by
  by_cases h : i < l.length
  · by_cases hop : (l.get ⟨i, h⟩).type = MethodItemType.MFLOW_OPCODE
    · have hs : seekOpcode l i = i := by
        conv_lhs => rw [seekOpcode]
        rw [dif_pos h, if_pos hop]
      have hu : instructionItemsFrom l i
          = l.get ⟨i, h⟩ :: instructionItemsFrom l (seekOpcode l (i + 1)) := by
        conv_lhs => rw [instructionItemsFrom]
        rw [dif_pos h]
      rw [hs, hu, instructionItemsFrom_seek l (i + 1)]
      rw [List.drop_eq_getElem_cons h, List.filter_cons]
      simp only [List.get_eq_getElem] at hop
      simp [hop]
    · have hs : seekOpcode l i = seekOpcode l (i + 1) := by
        conv_lhs => rw [seekOpcode]
        rw [dif_pos h, if_neg hop]
      rw [hs, instructionItemsFrom_seek l (i + 1)]
      rw [List.drop_eq_getElem_cons h, List.filter_cons]
      simp only [List.get_eq_getElem] at hop
      simp [hop]
  · have h1 : seekOpcode l i = l.length := by
      conv_lhs => rw [seekOpcode]
      rw [dif_neg h]
    have h2 : instructionItemsFrom l l.length = [] := by
      conv_lhs => rw [instructionItemsFrom]
      rw [dif_neg (lt_irrefl _)]
    rw [h1, h2, List.drop_eq_nil_of_le (Nat.le_of_not_lt h)]
    rfl
termination_by l.length - i
decreasing_by
  all_goals omega

/-- C8: the instructions-only iteration of a ribbon dereferences exactly
the subsequence of MFLOW_OPCODE items, in ribbon order: every opcode item
is visited exactly once, and no item of any other kind is ever
dereferenced. -/
theorem instruction_iteration_filters_opcodes (l : List MethodItemEntry) :
    instructionItems l
      = l.filter (fun it => it.type == MethodItemType.MFLOW_OPCODE) ∧
    ∀ it, it ∈ instructionItems l → it.type = MethodItemType.MFLOW_OPCODE := by
  have h := instructionItemsFrom_seek l 0
  rw [List.drop_zero] at h
  have h0 : instructionItems l
      = l.filter fun it => it.type == MethodItemType.MFLOW_OPCODE := by
    unfold instructionItems
    exact h
  refine ⟨h0, ?_⟩
  intro it hmem
  rw [h0] at hmem
  simpa using List.of_mem_filter hmem

/-- Modelled from the spec: one entry of the external per-opcode operand
shape catalog (spec 2.A, 4.1-A): a bit width per source, destination
presence and bit width, and whether the destination aliases source 0. -/
structure OpSpec where
  srcWidths : List Nat
  hasDest : Bool
  destWidth : Nat
  destIsSrc0 : Bool
deriving DecidableEq, Repr

/-- Modelled from the spec: DexInstruction's operand storage, which
DexInstruction.h defines outside the repository files and
src/test/unit/RegistersTest.cpp exercises.  Each operand is a bit field of
the catalog's width; when the catalog says the destination aliases source
0, the two share source 0's storage. -/
structure RegStore where
  destVal : Nat
  srcVals : List Nat
deriving DecidableEq, Repr

/-- Modelled from the spec: `insn.dest()`. -/
def RegStore.get_dest (op : OpSpec) (s : RegStore) : Nat :=
  if op.destIsSrc0 = true then s.srcVals.getD 0 0 else s.destVal

/-- Modelled from the spec: `insn.set_dest(v)` stores v masked to the
destination field's bit width (into source 0's storage when aliased). -/
def RegStore.set_dest (op : OpSpec) (s : RegStore) (v : Nat) : RegStore :=
  if op.destIsSrc0 = true then
    { s with srcVals := s.srcVals.set 0 (v % 2 ^ op.destWidth) }
  else { s with destVal := v % 2 ^ op.destWidth }

/-- Modelled from the spec: `insn.src(i)`. -/
def RegStore.get_src (s : RegStore) (i : Nat) : Nat :=
  s.srcVals.getD i 0

/-- Modelled from the spec: `insn.set_src(i, v)` stores v masked to source
i's field bit width. -/
def RegStore.set_src (op : OpSpec) (s : RegStore) (i v : Nat) : RegStore :=
  { s with srcVals := s.srcVals.set i (v % 2 ^ (op.srcWidths.getD i 0)) }

/-- Modelled from the spec: `DexInstruction insn(opcode)` — zeroed operand
storage of the catalog's shape for the opcode. -/
def RegStore.init (op : OpSpec) : RegStore :=
  { destVal := 0, srcVals := List.replicate op.srcWidths.length 0 }

/-- The source-write loop of test_opcode (RegistersTest.cpp lines 45-47):
set each source in index order, starting at index i. -/
def RegStore.set_srcs_from (op : OpSpec) : RegStore → Nat → List Nat → RegStore
  | s, _, [] => s
  | s, i, v :: rest =>
    RegStore.set_srcs_from op (RegStore.set_src op s i v) (i + 1) rest

/-- The write sequence of test_opcode (RegistersTest.cpp lines 40-47): a
fresh instruction, set_dest when the opcode has a destination, then each
source in index order. -/
def test_write_all (op : OpSpec) (d : Nat) (ss : List Nat) : RegStore :=
  RegStore.set_srcs_from op
    (if op.hasDest = true then RegStore.set_dest op (RegStore.init op) d
     else RegStore.init op) 0 ss

theorem set_srcs_from_destVal (op : OpSpec) (ss : List Nat) (s : RegStore)
    (i : Nat) : (RegStore.set_srcs_from op s i ss).destVal = s.destVal := by
  induction ss generalizing s i with
  | nil => rfl
  | cons v rest ih => exact ih (RegStore.set_src op s i v) (i + 1)

theorem set_srcs_from_length (op : OpSpec) (ss : List Nat) (s : RegStore)
    (i : Nat) :
    (RegStore.set_srcs_from op s i ss).srcVals.length = s.srcVals.length := by
  induction ss generalizing s i with
  | nil => rfl
  | cons v rest ih =>
    rw [show RegStore.set_srcs_from op s i (v :: rest)
        = RegStore.set_srcs_from op (RegStore.set_src op s i v) (i + 1) rest
        from rfl, ih]
    simp [RegStore.set_src]

theorem set_srcs_from_getElem (op : OpSpec) (ss : List Nat) (s : RegStore)
    (i j : Nat) :
    (RegStore.set_srcs_from op s i ss).srcVals[j]? =
      if i ≤ j ∧ j - i < ss.length ∧ j < s.srcVals.length
      then some ((ss.getD (j - i) 0) % 2 ^ (op.srcWidths.getD j 0))
      else s.srcVals[j]? := by
  induction ss generalizing s i with
  | nil => simp [RegStore.set_srcs_from]
  | cons v rest ih =>
    rw [show RegStore.set_srcs_from op s i (v :: rest)
        = RegStore.set_srcs_from op (RegStore.set_src op s i v) (i + 1) rest
        from rfl]
    have hlen : (RegStore.set_src op s i v).srcVals.length
        = s.srcVals.length := by
      simp [RegStore.set_src]
    have hset : (RegStore.set_src op s i v).srcVals[j]? =
        if i = j then (if i < s.srcVals.length
          then some (v % 2 ^ (op.srcWidths.getD i 0)) else none)
        else s.srcVals[j]? := by
      simp [RegStore.set_src, List.getElem?_set]
    rw [ih, hlen, hset]
    simp only [List.length_cons]
    by_cases hcond : i ≤ j ∧ j - i < rest.length + 1 ∧ j < s.srcVals.length
    · rw [if_pos hcond]
      by_cases hij : i = j
      · subst hij
        have hc1 : ¬ (i + 1 ≤ i ∧ i - (i + 1) < rest.length
            ∧ i < s.srcVals.length) := by omega
        rw [if_neg hc1, if_pos rfl, if_pos hcond.2.2]
        simp
      · have hi1 : i + 1 ≤ j := by omega
        have hc1 : i + 1 ≤ j ∧ j - (i + 1) < rest.length
            ∧ j < s.srcVals.length := by omega
        rw [if_pos hc1]
        have hk : j - i = (j - (i + 1)) + 1 := by omega
        rw [hk]
        simp
    · rw [if_neg hcond]
      have hc1 : ¬ (i + 1 ≤ j ∧ j - (i + 1) < rest.length
          ∧ j < s.srcVals.length) := by omega
      rw [if_neg hc1]
      by_cases hij : i = j
      · subst hij
        have hnl : ¬ i < s.srcVals.length := by omega
        rw [if_pos rfl, if_neg hnl]
        exact (List.getElem?_eq_none (by omega)).symm
      · rw [if_neg hij]

/-- C7: for any catalog entry, after setting the destination and then each
source in index order to representable values, reading the destination
returns the written value — or the source-0 value when the catalog aliases
dest with src0 — and reading each source returns its written value; and 0
and the per-operand maximum round-trip through set/get for every operand.
(Spec 8.6; the storage is modelled from the spec, DexInstruction.h not
being among the repository files.) -/
theorem registers_roundtrip (op : OpSpec) (d : Nat) (ss : List Nat)
    (hlen : ss.length = op.srcWidths.length)
    (hd : d < 2 ^ op.destWidth)
    (hss : ∀ j, j < ss.length → ss.getD j 0 < 2 ^ (op.srcWidths.getD j 0))
    (halias : op.destIsSrc0 = true → 0 < ss.length) :
    (op.hasDest = true →
      RegStore.get_dest op (test_write_all op d ss)
        = (if op.destIsSrc0 = true then ss.getD 0 0 else d)) ∧
    (∀ j, j < ss.length →
      RegStore.get_src (test_write_all op d ss) j = ss.getD j 0) ∧
    (∀ s : RegStore, s.srcVals.length = op.srcWidths.length →
      (op.hasDest = true →
        RegStore.get_dest op (RegStore.set_dest op s 0) = 0 ∧
        RegStore.get_dest op (RegStore.set_dest op s (2 ^ op.destWidth - 1))
          = 2 ^ op.destWidth - 1) ∧
      (∀ j, j < op.srcWidths.length →
        RegStore.get_src (RegStore.set_src op s j 0) j = 0 ∧
        RegStore.get_src
            (RegStore.set_src op s j (2 ^ (op.srcWidths.getD j 0) - 1)) j
          = 2 ^ (op.srcWidths.getD j 0) - 1)) := by
  have hs0len : (if op.hasDest = true
      then RegStore.set_dest op (RegStore.init op) d
      else RegStore.init op).srcVals.length = op.srcWidths.length := by
    by_cases hdest : op.hasDest = true
    · rw [if_pos hdest]
      unfold RegStore.set_dest
      by_cases ha : op.destIsSrc0 = true
      · rw [if_pos ha]
        simp [RegStore.init]
      · rw [if_neg ha]
        simp [RegStore.init]
    · rw [if_neg hdest]
      simp [RegStore.init]
  refine ⟨?_, ?_, ?_⟩
  · intro hdest
    unfold RegStore.get_dest
    by_cases ha : op.destIsSrc0 = true
    · rw [if_pos ha]
      have h0 : 0 < ss.length := halias ha
      unfold test_write_all
      rw [List.getD_eq_getElem?_getD, set_srcs_from_getElem]
      have hc : (0:Nat) ≤ 0 ∧ 0 - 0 < ss.length ∧
          0 < (if op.hasDest = true
            then RegStore.set_dest op (RegStore.init op) d
            else RegStore.init op).srcVals.length := by
        refine ⟨Nat.le_refl 0, by omega, by omega⟩
      rw [if_pos hc]
      have hv := hss 0 h0
      rw [List.getD_eq_getElem?_getD, List.getD_eq_getElem?_getD] at hv
      simp [ha, Nat.mod_eq_of_lt hv]
    · rw [if_neg ha]
      unfold test_write_all
      rw [set_srcs_from_destVal, if_pos hdest]
      unfold RegStore.set_dest
      rw [if_neg ha]
      simp [ha, Nat.mod_eq_of_lt hd]
  · intro j hj
    unfold RegStore.get_src test_write_all
    rw [List.getD_eq_getElem?_getD, set_srcs_from_getElem]
    have hc : 0 ≤ j ∧ j - 0 < ss.length ∧
        j < (if op.hasDest = true
          then RegStore.set_dest op (RegStore.init op) d
          else RegStore.init op).srcVals.length := by
      refine ⟨Nat.zero_le j, by omega, by omega⟩
    rw [if_pos hc]
    have hv := hss j hj
    rw [List.getD_eq_getElem?_getD, List.getD_eq_getElem?_getD] at hv
    simp [Nat.mod_eq_of_lt hv]
  · intro s hslen
    refine ⟨?_, ?_⟩
    · intro hdest
      unfold RegStore.get_dest RegStore.set_dest
      by_cases ha : op.destIsSrc0 = true
      · have h0 : 0 < ss.length := halias ha
        have hsl : 0 < s.srcVals.length := by omega
        constructor
        · rw [if_pos ha, if_pos ha]
          rw [List.getD_eq_getElem?_getD, List.getElem?_set_self hsl]
          simp
        · rw [if_pos ha, if_pos ha]
          rw [List.getD_eq_getElem?_getD, List.getElem?_set_self hsl]
          have hlt : 2 ^ op.destWidth - 1 < 2 ^ op.destWidth := by
            have := Nat.two_pow_pos op.destWidth
            omega
          simp [Nat.mod_eq_of_lt hlt]
      · constructor
        · rw [if_neg ha, if_neg ha]
          simp
        · rw [if_neg ha, if_neg ha]
          have hlt : 2 ^ op.destWidth - 1 < 2 ^ op.destWidth := by
            have := Nat.two_pow_pos op.destWidth
            omega
          simp [Nat.mod_eq_of_lt hlt]
    · intro j hj
      have hjl : j < s.srcVals.length := by omega
      constructor
      · unfold RegStore.get_src RegStore.set_src
        rw [List.getD_eq_getElem?_getD, List.getElem?_set_self hjl]
        simp
      · unfold RegStore.get_src RegStore.set_src
        rw [List.getD_eq_getElem?_getD, List.getElem?_set_self hjl]
        have hlt : 2 ^ (op.srcWidths.getD j 0) - 1 < 2 ^ (op.srcWidths.getD j 0) := by
          have := Nat.two_pow_pos (op.srcWidths.getD j 0)
          omega
        simp [Nat.mod_eq_of_lt hlt]

def c7Op : OpSpec := ⟨[4, 8], true, 8, false⟩

theorem registers_roundtrip_witness :
    RegStore.get_dest c7Op (test_write_all c7Op 5 [3, 7]) = 5 ∧
    RegStore.get_src (test_write_all c7Op 5 [3, 7]) 0 = 3 ∧
    RegStore.get_src (test_write_all c7Op 5 [3, 7]) 1 = 7 := by
  have h := registers_roundtrip c7Op 5 [3, 7] rfl (by decide) (by decide)
    (by decide)
  refine ⟨?_, ?_, ?_⟩
  · simpa using h.1 rfl
  · simpa using h.2.1 0 (by decide)
  · simpa using h.2.1 1 (by decide)

/-- The observable actions of the scoped editor's lifecycle and of pass
code running inside its scope, tagged by the DexCode they act on. -/
inductive EditorEvent where
  | balloonEv (codeId : Nat)
  | buildCfgEv (codeId : Nat)
  | syncEv (codeId : Nat)
  | bodyStep (tag : Nat)
deriving DecidableEq, Repr

/-- Whether an event is a sync on some code. -/
def isSyncEv : EditorEvent → Bool
  | EditorEvent.syncEv _ => true
  | _ => false

/-- MethodTransformer's constructor (Transform.h lines 339-347): store
m_code = the method's code, balloon it, and when want_cfg build the CFG. -/
def methodTransformerCtor (codeId : Nat) (want_cfg : Bool) :
    List EditorEvent :=
  EditorEvent.balloonEv codeId ::
    (if want_cfg = true then [EditorEvent.buildCfgEv codeId] else [])

/-- MethodTransformer's destructor (Transform.h line 349): sync the stored
code. -/
def methodTransformerDtor (codeId : Nat) : List EditorEvent :=
  [EditorEvent.syncEv codeId]

/-- Modelled from the spec: the C++ semantics of an automatic
MethodTransformer variable — the destructor runs on every exit from its
scope, normal or failing (spec 6: "guaranteed release on any exit path
including failures").  A body that fails after k steps contributes only
that prefix of its events; the destructor's events follow either way. -/
def scopedEdit (codeId : Nat) (want_cfg : Bool) (body : List EditorEvent)
    (failsAfter : Option Nat) : List EditorEvent :=
  methodTransformerCtor codeId want_cfg ++
    (match failsAfter with
     | none => body
     | some k => body.take k) ++
  methodTransformerDtor codeId

theorem scoped_edit_parts (codeId : Nat) (want_cfg : Bool)
    (mid : List EditorEvent)
    (hnot : EditorEvent.syncEv codeId ∉ mid) :
    ((methodTransformerCtor codeId want_cfg ++ mid
        ++ methodTransformerDtor codeId).count (EditorEvent.syncEv codeId) = 1) ∧
    ((methodTransformerCtor codeId want_cfg ++ mid
        ++ methodTransformerDtor codeId).getLast?
      = some (EditorEvent.syncEv codeId)) ∧
    ((methodTransformerCtor codeId want_cfg ++ mid
        ++ methodTransformerDtor codeId).head?
      = some (EditorEvent.balloonEv codeId)) ∧
    (want_cfg = true →
      (methodTransformerCtor codeId want_cfg ++ mid
        ++ methodTransformerDtor codeId)[1]?
        = some (EditorEvent.buildCfgEv codeId)) := by
  have hcnt0 : mid.count (EditorEvent.syncEv codeId) = 0 :=
    List.count_eq_zero.mpr hnot
  refine ⟨?_, ?_, ?_, ?_⟩
  · unfold methodTransformerCtor methodTransformerDtor
    rw [List.count_append, List.count_append, hcnt0]
    by_cases hw : want_cfg = true
    · rw [if_pos hw]
      simp [List.count_cons]
    · rw [if_neg hw]
      simp [List.count_cons]
  · unfold methodTransformerDtor
    rw [List.getLast?_concat]
  · unfold methodTransformerCtor
    simp
  · intro hw
    unfold methodTransformerCtor
    rw [if_pos hw]
    simp

/-- C9: every use of the scoped editor balloons the method's code as its
first action, builds the CFG right after exactly when requested, and on
every exit from the scope — completed body or one failing partway — sync
runs on that same code exactly once, as the last action of the scope. -/
theorem method_transformer_scoped_sync
    (codeId : Nat) (want_cfg : Bool) (body : List EditorEvent)
    (failsAfter : Option Nat)
    (hbody : ∀ e ∈ body, isSyncEv e = false) :
    (scopedEdit codeId want_cfg body failsAfter).count
        (EditorEvent.syncEv codeId) = 1 ∧
    (scopedEdit codeId want_cfg body failsAfter).getLast?
      = some (EditorEvent.syncEv codeId) ∧
    (scopedEdit codeId want_cfg body failsAfter).head?
      = some (EditorEvent.balloonEv codeId) ∧
    (want_cfg = true →
      (scopedEdit codeId want_cfg body failsAfter)[1]?
        = some (EditorEvent.buildCfgEv codeId)) := by
  cases failsAfter with
  | none =>
    have hnot : EditorEvent.syncEv codeId ∉ body := by
      intro hm
      have := hbody _ hm
      simp [isSyncEv] at this
    exact scoped_edit_parts codeId want_cfg body hnot
  | some k =>
    have hnot : EditorEvent.syncEv codeId ∉ body.take k := by
      intro hm
      have := hbody _ (List.mem_of_mem_take hm)
      simp [isSyncEv] at this
    exact scoped_edit_parts codeId want_cfg (body.take k) hnot

def c9Body : List EditorEvent := [EditorEvent.bodyStep 0, EditorEvent.bodyStep 1]

theorem method_transformer_scoped_sync_witness :
    (scopedEdit 2 true c9Body (some 1)).count (EditorEvent.syncEv 2) = 1 ∧
    (scopedEdit 2 true c9Body (some 1)).getLast?
      = some (EditorEvent.syncEv 2) ∧
    (scopedEdit 2 true c9Body (some 1)).head?
      = some (EditorEvent.balloonEv 2) ∧
    (true = true →
      (scopedEdit 2 true c9Body (some 1))[1]?
        = some (EditorEvent.buildCfgEv 2)) :=
  method_transformer_scoped_sync 2 true c9Body (some 1) (by decide)

theorem getLast?_mem_of_eq {α : Type} {l : List α} {a : α}
    (h : l.getLast? = some a) : a ∈ l := by
  cases l with
  | nil => simp at h
  | cons x xs =>
    have h2 := List.getLast?_eq_getLast (x :: xs) (by simp)
    rw [h2] at h
    cases h
    exact List.getLast_mem _

theorem mem_le_foldr_max (xs : List Nat) (x : Nat) (hx : x ∈ xs) :
    x ≤ xs.foldr (fun a b => max a b) 0 := by
  induction xs with
  | nil => cases hx
  | cons y rest ih =>
    rcases List.mem_cons.mp hx with h | h
    · subst h
      exact Nat.le_max_left _ _
    · exact Nat.le_trans (ih h) (Nat.le_max_right _ _)

theorem freshId_not_mem (code : MethodCode) :
    freshId code ∉ code.insns.map Prod.fst := by
  intro hm
  have h := mem_le_foldr_max _ _ hm
  unfold freshId at h
  omega

theorem foldl_remove_regs (ds : List Nat) (code : MethodCode) :
    ((ds.foldl remove_opcode code).registers_size = code.registers_size) ∧
    ((ds.foldl remove_opcode code).ins_size = code.ins_size) := by
  induction ds generalizing code with
  | nil => exact ⟨rfl, rfl⟩
  | cons d rest ih => exact ih (remove_opcode code d)

theorem foldl_set_regs (ws : List Replacement) (code : MethodCode) :
    ((ws.foldl (fun c r => set_src c r.1 r.2.1 r.2.2) code).registers_size
      = code.registers_size) ∧
    ((ws.foldl (fun c r => set_src c r.1 r.2.1 r.2.2) code).ins_size
      = code.ins_size) := by
  induction ws generalizing code with
  | nil => exact ⟨rfl, rfl⟩
  | cons w rest ih => exact ih (set_src code w.1 w.2.1 w.2.2)

theorem method_updates_regs (code : MethodCode) (ds : List Nat)
    (ws : List Replacement) :
    (method_updates code ds ws).registers_size = code.registers_size := by
  unfold method_updates
  rw [(foldl_set_regs ws _).1, (foldl_remove_regs ds code).1]

theorem foldl_remove_insns (ds : List Nat) (code : MethodCode) :
    (ds.foldl remove_opcode code).insns
      = code.insns.filter fun p => decide (p.1 ∉ ds) := by
  induction ds generalizing code with
  | nil =>
    rw [List.foldl_nil]
    rw [List.filter_eq_self.mpr]
    intro a _
    simp
  | cons d rest ih =>
    rw [List.foldl_cons, ih]
    unfold remove_opcode
    rw [List.filter_filter]
    apply List.filter_congr
    intro p _
    by_cases h1 : p.1 = d <;> by_cases h2 : p.1 ∈ rest <;>
      simp [h1, h2, List.mem_cons]

theorem alookup_filter_not_mem (l : List (Nat × Insn)) (ds : List Nat)
    (i : Nat) (hi : i ∉ ds) :
    alookup (l.filter fun p => decide (p.1 ∉ ds)) i = alookup l i := by
  induction l with
  | nil => rfl
  | cons p rest ih =>
    by_cases hp : p.1 ∈ ds
    · have hpi : ¬ p.1 = i := by
        intro h
        exact hi (h ▸ hp)
      rw [List.filter_cons, if_neg (by simp [hp])]
      rw [show alookup (p :: rest) i
          = if p.1 = i then some p.2 else alookup rest i from rfl, if_neg hpi]
      exact ih
    · rw [List.filter_cons, if_pos (by simp [hp])]
      rw [show alookup (p :: (rest.filter fun p => decide (p.1 ∉ ds))) i
          = if p.1 = i then some p.2
            else alookup (rest.filter fun p => decide (p.1 ∉ ds)) i from rfl]
      rw [show alookup (p :: rest) i
          = if p.1 = i then some p.2 else alookup rest i from rfl]
      by_cases hpi : p.1 = i
      · rw [if_pos hpi, if_pos hpi]
      · rw [if_neg hpi, if_neg hpi]
        exact ih

theorem foldl_set_insns (ws : List Replacement) (code : MethodCode) :
    (ws.foldl (fun c r => set_src c r.1 r.2.1 r.2.2) code).insns
      = code.insns.map fun p =>
          (p.1, ws.foldl
            (fun w r => if p.1 = r.1 then setSrcAt w r.2.1 r.2.2 else w) p.2) := by
  induction ws generalizing code with
  | nil =>
    rw [List.foldl_nil]
    exact (List.map_id code.insns).symm
  | cons r rest ih =>
    rw [List.foldl_cons, ih]
    unfold set_src
    rw [List.map_map]
    rfl

theorem nodup_keys_unique {l : List (Nat × Insn)}
    (h : (l.map Prod.fst).Nodup) {i : Nat} {a b : Insn}
    (ha : (i, a) ∈ l) (hb : (i, b) ∈ l) : a = b := by
  induction l with
  | nil => cases ha
  | cons p rest ih =>
    rw [List.map_cons, List.nodup_cons] at h
    rcases List.mem_cons.mp ha with ha1 | ha1 <;>
      rcases List.mem_cons.mp hb with hb1 | hb1
    · have : (i, a) = (i, b) := ha1.trans hb1.symm
      exact congrArg Prod.snd this
    · exfalso
      apply h.1
      have hp1 : p.1 = i := by rw [← ha1]
      rw [hp1]
      exact List.mem_map_of_mem Prod.fst hb1
    · exfalso
      apply h.1
      have hp1 : p.1 = i := by rw [← hb1]
      rw [hp1]
      exact List.mem_map_of_mem Prod.fst ha1
    · exact ih h.2 ha1 hb1

theorem alookup_of_mem_nodup {l : List (Nat × Insn)}
    (h : (l.map Prod.fst).Nodup) {i : Nat} {a : Insn}
    (ha : (i, a) ∈ l) : alookup l i = some a := by
  induction l with
  | nil => cases ha
  | cons p rest ih =>
    rw [List.map_cons, List.nodup_cons] at h
    rw [show alookup (p :: rest) i
        = if p.1 = i then some p.2 else alookup rest i from rfl]
    rcases List.mem_cons.mp ha with ha1 | ha1
    · rw [← ha1]
      rw [if_pos rfl]
    · have hpi : ¬ p.1 = i := by
        intro he
        apply h.1
        rw [he]
        exact List.mem_map_of_mem Prod.fst ha1
      rw [if_neg hpi]
      exact ih h.2 ha1

theorem setSrcAt_srcs_length (v : Insn) (idx r : Nat) :
    (setSrcAt v idx r).srcs.length = v.srcs.length := by
  unfold setSrcAt
  simp

theorem foldl_write_nil_srcs (ws : List Replacement) (c : Nat) (v : Insn)
    (h : v.srcs = []) :
    ws.foldl (fun w r => if c = r.1 then setSrcAt w r.2.1 r.2.2 else w) v
      = v := by
  induction ws generalizing v with
  | nil => rfl
  | cons r rest ih =>
    rw [List.foldl_cons]
    by_cases hc : c = r.1
    · rw [if_pos hc]
      have hset : setSrcAt v r.2.1 r.2.2 = v := by
        cases v
        simp only [Insn.mk.injEq] at h ⊢
        unfold setSrcAt
        simp_all
      rw [hset]
      exact ih v h
    · rw [if_neg hc]
      exact ih v h

theorem foldl_write_preserve (ws : List Replacement) (c idx : Nat) (v : Insn)
    (hnone : ∀ r ∈ ws, ¬ (r.1 = c ∧ r.2.1 = idx)) :
    (ws.foldl (fun w r => if c = r.1 then setSrcAt w r.2.1 r.2.2 else w)
        v).srcs[idx]? = v.srcs[idx]? := by
  induction ws generalizing v with
  | nil => rfl
  | cons r rest ih =>
    rw [List.foldl_cons]
    have hrest : ∀ r ∈ rest, ¬ (r.1 = c ∧ r.2.1 = idx) :=
      fun x hx => hnone x (List.mem_cons_of_mem _ hx)
    by_cases hc : c = r.1
    · rw [if_pos hc]
      have hne : r.2.1 ≠ idx := by
        intro he
        exact hnone r (List.mem_cons_self _ _) ⟨hc.symm, he⟩
      rw [ih _ hrest]
      unfold setSrcAt
      simp [List.getElem?_set_ne hne]
    · rw [if_neg hc]
      exact ih v hrest

theorem foldl_write_length (ws : List Replacement) (c : Nat) (v : Insn) :
    (ws.foldl (fun w r => if c = r.1 then setSrcAt w r.2.1 r.2.2 else w)
        v).srcs.length = v.srcs.length := by
  induction ws generalizing v with
  | nil => rfl
  | cons r rest ih =>
    rw [List.foldl_cons]
    by_cases hc : c = r.1
    · rw [if_pos hc, ih]
      exact setSrcAt_srcs_length v r.2.1 r.2.2
    · rw [if_neg hc]
      exact ih v

theorem foldl_write_get (ws : List Replacement) (c idx val : Nat) (v : Insn)
    (hidx : idx < v.srcs.length)
    (hlast : ∃ w, (ws.filter fun r =>
        decide (r.1 = c) && decide (r.2.1 = idx)).getLast? = some w
      ∧ w.2.2 = val) :
    (ws.foldl (fun w r => if c = r.1 then setSrcAt w r.2.1 r.2.2 else w)
        v).srcs[idx]? = some val := by
  induction ws generalizing v with
  | nil =>
    obtain ⟨w, hw, _⟩ := hlast
    simp at hw
  | cons r rest ih =>
    rw [List.foldl_cons]
    by_cases hpred : (decide (r.1 = c) && decide (r.2.1 = idx)) = true
    · have hr1 : r.1 = c := by
        have := (Bool.and_eq_true _ _).mp hpred
        exact of_decide_eq_true this.1
      have hr2 : r.2.1 = idx := by
        have := (Bool.and_eq_true _ _).mp hpred
        exact of_decide_eq_true this.2
      rw [if_pos hr1.symm]
      obtain ⟨w, hw, hwval⟩ := hlast
      rw [List.filter_cons, if_pos hpred] at hw
      cases hrf : (rest.filter fun r =>
          decide (r.1 = c) && decide (r.2.1 = idx)).getLast? with
      | none =>
        have hrnil : (rest.filter fun r =>
            decide (r.1 = c) && decide (r.2.1 = idx)) = [] := by
          cases hx : (rest.filter fun r =>
              decide (r.1 = c) && decide (r.2.1 = idx)) with
          | nil => rfl
          | cons y ys =>
            rw [hx] at hrf
            have := List.getLast?_eq_getLast (y :: ys) (by simp)
            rw [this] at hrf
            cases hrf
        have hwr : w = r := by
          rw [hrnil] at hw
          have : ([r] : List Replacement).getLast? = some r := rfl
          rw [this] at hw
          cases hw
          rfl
        have hnone : ∀ x ∈ rest, ¬ (x.1 = c ∧ x.2.1 = idx) := by
          intro x hx hcon
          have : (decide (x.1 = c) && decide (x.2.1 = idx)) = true := by
            simp [hcon.1, hcon.2]
          have hmem : x ∈ (rest.filter fun r =>
              decide (r.1 = c) && decide (r.2.1 = idx)) :=
            List.mem_filter.mpr ⟨hx, this⟩
          rw [hrnil] at hmem
          cases hmem
        rw [foldl_write_preserve rest c idx _ hnone]
        unfold setSrcAt
        rw [hr2]
        simp only []
        rw [List.getElem?_set_self hidx]
        rw [← hwval, hwr]
      | some w2 =>
        have hlast2 : ∃ w', (rest.filter fun r =>
            decide (r.1 = c) && decide (r.2.1 = idx)).getLast? = some w'
            ∧ w'.2.2 = val := by
          refine ⟨w2, hrf, ?_⟩
          have hcons : ((r :: (rest.filter fun r =>
              decide (r.1 = c) && decide (r.2.1 = idx))) : List Replacement).getLast?
              = some w2 := by
            cases hx : (rest.filter fun r =>
                decide (r.1 = c) && decide (r.2.1 = idx)) with
            | nil =>
              rw [hx] at hrf
              cases hrf
            | cons y ys =>
              rw [hx] at hrf
              rw [show ((r :: y :: ys) : List Replacement).getLast?
                  = (y :: ys).getLast? from rfl]
              exact hrf
          rw [hcons] at hw
          cases hw
          exact hwval
        have hidx2 : idx < (setSrcAt v r.2.1 r.2.2).srcs.length := by
          rw [setSrcAt_srcs_length]
          exact hidx
        exact ih _ hidx2 hlast2
    · have hcfalse : ¬ (r.1 = c ∧ r.2.1 = idx) := by
        intro hcon
        apply hpred
        simp [hcon.1, hcon.2]
      obtain ⟨w, hw, hwval⟩ := hlast
      rw [List.filter_cons, if_neg hpred] at hw
      by_cases hc : c = r.1
      · rw [if_pos hc]
        have hidx2 : idx < (setSrcAt v r.2.1 r.2.2).srcs.length := by
          rw [setSrcAt_srcs_length]
          exact hidx
        exact ih _ hidx2 ⟨w, hw, hwval⟩
      · rw [if_neg hc]
        exact ih v hidx ⟨w, hw, hwval⟩

theorem scan_pairs_undef_mem (insnId idx cs : Nat) (fsetter : FieldsRegs)
    (pairs : List (Nat × FieldOrRegStatus)) (u : List (Nat × Nat))
    (rr : List Replacement)
    (h : scan_pairs insnId idx cs fsetter pairs = some (u, rr)) :
    ∀ e ∈ u, e = (insnId, idx) := by
  induction pairs generalizing u rr with
  | nil =>
    simp only [scan_pairs] at h
    cases h
    intro e he
    cases he
  | cons p rest ih =>
    simp only [scan_pairs] at h
    by_cases hc : p.2 = FieldOrRegStatus.reg cs
    · rw [if_pos hc] at h
      cases hval : alookupD fsetter.field_to_reg p.1 with
      | UNDEFINED =>
        rw [hval] at h
        rcases Option.map_eq_some'.mp h with ⟨a, ha, hfa⟩
        intro e he
        have hu : (insnId, idx) :: a.1 = u := congrArg Prod.fst hfa
        rw [← hu] at he
        rcases List.mem_cons.mp he with he1 | he1
        · exact he1
        · exact ih a.1 a.2 (by rw [ha]) e he1
      | DIFFERENT =>
        rw [hval] at h
        cases h
      | OVERWRITTEN =>
        rw [hval] at h
        cases h
      | reg r =>
        rw [hval] at h
        rcases Option.map_eq_some'.mp h with ⟨a, ha, hfa⟩
        intro e he
        have hu : a.1 = u := congrArg Prod.fst hfa
        rw [← hu] at he
        exact ih a.1 a.2 (by rw [ha]) e he
    · rw [if_neg hc] at h
      exact ih u rr h

theorem scan_idx_list_undef_mem (insnId : Nat) (insn : Insn)
    (fsetter fgetter : FieldsRegs) (idxs : List Nat) (u : List (Nat × Nat))
    (rr : List Replacement)
    (h : scan_idx_list insnId insn fsetter fgetter idxs = some (u, rr)) :
    ∀ e ∈ u, e.1 = insnId ∧ e.2 ∈ idxs := by
  induction idxs generalizing u rr with
  | nil =>
    simp only [scan_idx_list] at h
    cases h
    intro e he
    cases he
  | cons idx rest ih =>
    simp only [scan_idx_list] at h
    cases hsp : scan_pairs insnId idx (insn.srcs.getD idx 0) fsetter
        fgetter.field_to_reg with
    | none =>
      rw [hsp] at h
      cases h
    | some ur1 =>
      rw [hsp] at h
      cases hrec : scan_idx_list insnId insn fsetter fgetter rest with
      | none =>
        rw [hrec] at h
        cases h
      | some ur2 =>
        rw [hrec] at h
        cases h
        intro e he
        rcases List.mem_append.mp he with he1 | he1
        · have := scan_pairs_undef_mem insnId idx _ fsetter _ ur1.1 ur1.2
            (by rw [hsp]) e he1
          rw [this]
          exact ⟨rfl, List.mem_cons_self _ _⟩
        · have := ih ur2.1 ur2.2 (by rw [hrec]) e he1
          exact ⟨this.1, List.mem_cons_of_mem _ this.2⟩

theorem scan_insn_undef_mem (insnId : Nat) (insn : Insn)
    (fsetter fgetter : FieldsRegs) (u : List (Nat × Nat))
    (rr : List Replacement)
    (h : scan_insn insnId insn fsetter fgetter = some (u, rr)) :
    ∀ e ∈ u, e.1 = insnId ∧ e.2 < insn.srcs.length := by
  unfold scan_insn at h
  by_cases hl : insn.srcs.length > 0
  · rw [if_pos hl] at h
    intro e he
    have := scan_idx_list_undef_mem insnId insn fsetter fgetter _ u rr h e he
    exact ⟨this.1, List.mem_range.mp this.2⟩
  · rw [if_neg hl] at h
    cases h
    intro e he
    cases he

theorem collect_sound (builder : DexClassM)
    (fsetters fgetters : Nat → FieldsRegs) (l : List (Nat × Insn))
    (dels : List Nat) (undef : List (Nat × Nat)) (reps : List Replacement)
    (h : collect builder fsetters fgetters l = some (dels, undef, reps)) :
    (∀ d ∈ dels, ∃ v, (d, v) ∈ l ∧ is_delete_insn v builder = true) ∧
    (∀ e ∈ undef, ∃ v, (e.1, v) ∈ l ∧ is_delete_insn v builder = false
      ∧ e.2 < v.srcs.length) := by
  induction l generalizing dels undef reps with
  | nil =>
    simp only [collect] at h
    cases h
    constructor
    · intro d hd
      cases hd
    · intro e he
      cases he
  | cons p rest ih =>
    obtain ⟨j, w⟩ := p
    simp only [collect] at h
    by_cases hd : is_delete_insn w builder = true
    · rw [if_pos hd] at h
      rcases Option.map_eq_some'.mp h with ⟨dur, hdur, hfa⟩
      have ihx := ih dur.1 dur.2.1 dur.2.2 (by rw [hdur])
      have hdels : j :: dur.1 = dels := congrArg Prod.fst hfa
      have hundef : dur.2.1 = undef :=
        congrArg Prod.fst (congrArg Prod.snd hfa)
      constructor
      · intro d hdm
        rw [← hdels] at hdm
        rcases List.mem_cons.mp hdm with h1 | h1
        · subst h1
          exact ⟨w, List.mem_cons_self _ _, hd⟩
        · rcases ihx.1 d h1 with ⟨v, hv, hvd⟩
          exact ⟨v, List.mem_cons_of_mem _ hv, hvd⟩
      · intro e hem
        rw [← hundef] at hem
        rcases ihx.2 e hem with ⟨v, hv, hvd, hvl⟩
        exact ⟨v, List.mem_cons_of_mem _ hv, hvd, hvl⟩
    · rw [if_neg hd] at h
      cases hsc : scan_insn j w (fsetters j) (fgetters j) with
      | none =>
        rw [hsc] at h
        cases h
      | some ur =>
        rw [hsc] at h
        cases hrec : collect builder fsetters fgetters rest with
        | none =>
          rw [hrec] at h
          cases h
        | some dur =>
          rw [hrec] at h
          cases h
          have ihx := ih dur.1 dur.2.1 dur.2.2 (by rw [hrec])
          constructor
          · intro d hdm
            rcases ihx.1 d hdm with ⟨v, hv, hvd⟩
            exact ⟨v, List.mem_cons_of_mem _ hv, hvd⟩
          · intro e hem
            rcases List.mem_append.mp hem with h1 | h1
            · have := scan_insn_undef_mem j w (fsetters j) (fgetters j)
                ur.1 ur.2 (by rw [hsc]) e h1
              refine ⟨w, ?_, ?_, ?_⟩
              · rw [this.1]
                exact List.mem_cons_self _ _
              · exact Bool.eq_false_iff.mpr hd
              · exact this.2
            · rcases ihx.2 e h1 with ⟨v, hv, hvd, hvl⟩
              exact ⟨v, List.mem_cons_of_mem _ hv, hvd, hvl⟩

theorem map_fst_filter_keys {α : Type} (l : List (Nat × α)) (q : Nat → Bool) :
    (l.filter fun p => q p.1).map Prod.fst = (l.map Prod.fst).filter q := by
  induction l with
  | nil => rfl
  | cons p rest ih =>
    rw [List.map_cons, List.filter_cons, List.filter_cons]
    cases hq : q p.1 <;> simp [hq, ih]

theorem enlargeInsn_srcs_length (oldregs ins delta : Nat) (v : Insn) :
    (enlargeInsn oldregs ins delta v).srcs.length = v.srcs.length := by
  unfold enlargeInsn
  simp

theorem enlarge_regs_shape (code : MethodCode) (newregs : Nat)
    (codeE : MethodCode) (h : enlarge_regs code newregs = some codeE) :
    codeE.registers_size = newregs ∧
    codeE.insns.map Prod.fst = code.insns.map Prod.fst ∧
    ∀ i v0, alookup code.insns i = some v0 →
      ∃ vE, alookup codeE.insns i = some vE
        ∧ vE.srcs.length = v0.srcs.length := by
  simp only [enlarge_regs] at h
  split at h
  · injection h with h2
    subst h2
    refine ⟨rfl, ?_, ?_⟩
    · rw [List.map_map]
      rfl
    · intro i v0 hv0
      refine ⟨enlargeInsn code.registers_size code.ins_size
        (newregs - code.registers_size) v0, ?_, ?_⟩
      · have hm := alookup_map_val (fun _ v =>
          enlargeInsn code.registers_size code.ins_size
            (newregs - code.registers_size) v) code.insns i
        rw [hv0] at hm
        exact hm
      · exact enlargeInsn_srcs_length _ _ _ v0
  · cases h

theorem method_updates_insns (code1 : MethodCode) (dels : List Nat)
    (ws : List Replacement) :
    (method_updates code1 dels ws).insns
      = (code1.insns.filter fun p => decide (p.1 ∉ dels)).map
          fun p => (p.1, ws.foldl
            (fun w r => if p.1 = r.1 then setSrcAt w r.2.1 r.2.2 else w) p.2) := by
  unfold method_updates
  rw [foldl_set_insns, foldl_remove_insns]

theorem method_updates_alookup (code1 : MethodCode) (dels : List Nat)
    (ws : List Replacement) (i : Nat) (hi : i ∉ dels) :
    alookup (method_updates code1 dels ws).insns i
      = (alookup code1.insns i).map fun v =>
          ws.foldl (fun w r => if i = r.1 then setSrcAt w r.2.1 r.2.2 else w) v := by
  have hm := alookup_map_val (fun k v => ws.foldl
    (fun w r => if k = r.1 then setSrcAt w r.2.1 r.2.2 else w) v)
    (code1.insns.filter fun p => decide (p.1 ∉ dels)) i
  rw [alookup_filter_not_mem _ _ _ hi] at hm
  rw [method_updates_insns]
  exact hm

/-- C3: when remove_builder succeeds having found at least one use of a
builder field whose setter status at the use is UNDEFINED, the register
file grows by exactly one; exactly one const-4 with literal 0 is inserted
at method entry, writing the previous last non-input register
(registers_size minus ins_size); every undefined use's source operand is
redirected to that register; and every previously planned replacement
register at or above that slot is shifted up by one.  (The register
widening itself, enlarge_regs, is modelled from spec 4.7.) -/
theorem remove_builder_undefined_null_register
    (method : DexMethodM) (builder buildee : DexClassM)
    (fsetters fgetters : Nat → FieldsRegs) (code : MethodCode)
    (dels : List Nat) (undef : List (Nat × Nat)) (reps : List Replacement)
    (final : MethodCode)
    (hcode : method.code = some code)
    (hnodup : (code.insns.map Prod.fst).Nodup)
    (hcol : collect builder fsetters fgetters code.insns
      = some (dels, undef, reps))
    (hundef : undef ≠ [])
    (hrun : remove_builder method builder buildee fsetters fgetters
      = (true, ⟨some final⟩)) :
    final.registers_size = code.registers_size + 1 ∧
    (∃ cid insnsTail,
      final.insns
        = (cid, mkConst4 (code.registers_size - code.ins_size) 0)
          :: insnsTail ∧
      insnsTail.map Prod.fst
        = (code.insns.map Prod.fst).filter fun j => decide (j ∉ dels)) ∧
    (∀ i idx, (i, idx) ∈ undef → ∃ v, alookup final.insns i = some v ∧
      v.srcs[idx]? = some (code.registers_size - code.ins_size)) ∧
    (∃ code1, treat_undefined_fields code undef reps
      = some (code1,
        reps.map (shiftReplacement (code.registers_size - code.ins_size))
          ++ undef.map fun u =>
            (u.1, u.2, code.registers_size - code.ins_size))) := by
  have hlen : undef.length > 0 := List.length_pos.mpr hundef
  cases han : add_null_instr code with
  | none =>
    exfalso
    have ht : treat_undefined_fields code undef reps = none := by
      simp only [treat_undefined_fields]
      rw [if_pos hlen, han]
    simp only [remove_builder, hcode, hcol, ht] at hrun
    exact Bool.noConfusion (congrArg Prod.fst hrun)
  | some code1 =>
    have ht : treat_undefined_fields code undef reps
        = some (code1,
          reps.map (shiftReplacement (code.registers_size - code.ins_size))
            ++ undef.map fun u =>
              (u.1, u.2, code.registers_size - code.ins_size)) := by
      simp only [treat_undefined_fields]
      rw [if_pos hlen, han]
    simp only [remove_builder, hcode, hcol, ht] at hrun
    have hfinal : method_updates code1 dels
        (reps.map (shiftReplacement (code.registers_size - code.ins_size))
          ++ undef.map fun u =>
            (u.1, u.2, code.registers_size - code.ins_size)) = final := by
      have h1 : (some (method_updates code1 dels
          (reps.map (shiftReplacement (code.registers_size - code.ins_size))
            ++ undef.map fun u =>
              (u.1, u.2, code.registers_size - code.ins_size)))
          : Option MethodCode) = some final :=
        congrArg (fun x : Bool × DexMethodM => x.2.code) hrun
      exact Option.some.inj h1
    cases hen : enlarge_regs code (code.registers_size + 1) with
    | none =>
      exfalso
      simp only [add_null_instr, hen] at han
      exact Option.noConfusion han
    | some codeE =>
      have hc1 : code1 = insert_front codeE
          (mkConst4 (code.registers_size - code.ins_size) 0) := by
        have h2 := han
        simp only [add_null_instr, hen] at h2
        exact (Option.some.inj h2).symm
      obtain ⟨hEreg, hEids, hElook⟩ := enlarge_regs_shape code
        (code.registers_size + 1) codeE hen
      have hfid : freshId codeE ∉ code.insns.map Prod.fst := by
        have h3 := freshId_not_mem codeE
        rw [hEids] at h3
        exact h3
      have hdelsub : ∀ d ∈ dels, d ∈ code.insns.map Prod.fst := by
        intro d hd
        rcases (collect_sound builder fsetters fgetters code.insns
          dels undef reps hcol).1 d hd with ⟨v, hv, _⟩
        exact List.mem_map_of_mem Prod.fst hv
      have hfid_dels : freshId codeE ∉ dels := fun hm => hfid (hdelsub _ hm)
      have hc1insns : code1.insns
          = (freshId codeE,
              mkConst4 (code.registers_size - code.ins_size) 0)
            :: codeE.insns := by
        rw [hc1]
        rfl
      have hc1regs : code1.registers_size = code.registers_size + 1 := by
        rw [hc1]
        show codeE.registers_size = _
        exact hEreg
      refine ⟨?_, ?_, ?_, ⟨code1, ht⟩⟩
      · rw [← hfinal, method_updates_regs, hc1regs]
      · rw [← hfinal, method_updates_insns, hc1insns, List.filter_cons,
          if_pos (by simp [hfid_dels]), List.map_cons,
          foldl_write_nil_srcs _ _ _ rfl]
        refine ⟨freshId codeE, _, rfl, ?_⟩
        have h3 : (((codeE.insns.filter fun p => decide (p.1 ∉ dels)).map
            fun p => (p.1,
              (reps.map (shiftReplacement
                  (code.registers_size - code.ins_size))
                ++ undef.map fun u =>
                  (u.1, u.2, code.registers_size - code.ins_size)).foldl
                (fun w r => if p.1 = r.1 then setSrcAt w r.2.1 r.2.2 else w)
                p.2)).map Prod.fst)
            = (codeE.insns.filter fun p => decide (p.1 ∉ dels)).map
                Prod.fst := by
          rw [List.map_map]
          rfl
        rw [h3]
        have h4 := map_fst_filter_keys codeE.insns fun j => decide (j ∉ dels)
        rw [hEids] at h4
        exact h4
      · intro i idx hiu
        have hcs := collect_sound builder fsetters fgetters code.insns
          dels undef reps hcol
        rcases hcs.2 (i, idx) hiu with ⟨v0, hv0mem, hv0del, hv0len⟩
        have hiid : i ∈ code.insns.map Prod.fst :=
          List.mem_map_of_mem Prod.fst hv0mem
        have hidels : i ∉ dels := by
          intro hmem
          rcases hcs.1 i hmem with ⟨v1, hv1mem, hv1del⟩
          have hv01 := nodup_keys_unique hnodup hv1mem hv0mem
          rw [hv01, hv0del] at hv1del
          exact Bool.noConfusion hv1del
        have hlook0 : alookup code.insns i = some v0 :=
          alookup_of_mem_nodup hnodup hv0mem
        rcases hElook i v0 hlook0 with ⟨vE, hvE, hvElen⟩
        have hlook1 : alookup code1.insns i = some vE := by
          rw [hc1insns]
          rw [show alookup ((freshId codeE,
              mkConst4 (code.registers_size - code.ins_size) 0)
                :: codeE.insns) i
              = if freshId codeE = i
                then some (mkConst4 (code.registers_size - code.ins_size) 0)
                else alookup codeE.insns i from rfl]
          rw [if_neg (fun h => hfid (by rw [h]; exact hiid))]
          exact hvE
        have hidx2 : idx < vE.srcs.length := by
          rw [hvElen]
          exact hv0len
        have hBfmem : ((i, idx, code.registers_size - code.ins_size)
            : Replacement) ∈ ((undef.map fun u =>
              (u.1, u.2, code.registers_size - code.ins_size)).filter
                fun r => decide (r.1 = i) && decide (r.2.1 = idx)) := by
          apply List.mem_filter.mpr
          constructor
          · exact List.mem_map_of_mem _ hiu
          · simp
        have hBne : ((undef.map fun u =>
            (u.1, u.2, code.registers_size - code.ins_size)).filter
              fun r => decide (r.1 = i) && decide (r.2.1 = idx)) ≠ [] :=
          List.ne_nil_of_mem hBfmem
        have hwlast := List.getLast?_eq_getLast _ hBne
        set w := ((undef.map fun u =>
            (u.1, u.2, code.registers_size - code.ins_size)).filter
              fun r => decide (r.1 = i) && decide (r.2.1 = idx)).getLast hBne
          with hwdef
        have hwmem : w ∈ ((undef.map fun u =>
            (u.1, u.2, code.registers_size - code.ins_size)).filter
              fun r => decide (r.1 = i) && decide (r.2.1 = idx)) :=
          getLast?_mem_of_eq hwlast
        have hwslot : w.2.2 = code.registers_size - code.ins_size := by
          have hwm2 := (List.mem_filter.mp hwmem).1
          rcases List.mem_map.mp hwm2 with ⟨u, _, hequ⟩
          rw [← hequ]
        have hlast : ∃ w2, (((reps.map (shiftReplacement
            (code.registers_size - code.ins_size))
              ++ undef.map fun u =>
                (u.1, u.2, code.registers_size - code.ins_size)).filter
              fun r => decide (r.1 = i) && decide (r.2.1 = idx)).getLast?)
            = some w2 ∧ w2.2.2 = code.registers_size - code.ins_size := by
          refine ⟨w, ?_, hwslot⟩
          rw [List.filter_append, List.getLast?_append, hwlast]
          rfl
        refine ⟨_, ?_, foldl_write_get _ i idx _ vE hidx2 hlast⟩
        rw [← hfinal, method_updates_alookup _ _ _ _ hidels, hlook1]
        rfl

def c3Insn : Insn :=
  { kind := OpKind.otherK, hasDest := false, dest := 0, destWide := false,
    destWidth := 16, srcs := [1], srcWidths := [16], fieldId := 0,
    fieldClassId := 0, typeId := 0, methodId := 0, methodClassId := 0,
    methodNameId := 0, literal := 0 }

def c3Code : MethodCode := ⟨[(0, c3Insn)], 4, 1⟩

def c3Method : DexMethodM := ⟨some c3Code⟩

def c3Builder : DexClassM := ⟨9, []⟩

def c3Fsetters : Nat → FieldsRegs :=
  fun _ => ⟨[(5, FieldOrRegStatus.UNDEFINED)]⟩

def c3Fgetters : Nat → FieldsRegs := fun _ => ⟨[(5, FieldOrRegStatus.reg 1)]⟩

def c3Final : MethodCode :=
  ⟨[(1, mkConst4 3 0), (0, { c3Insn with srcs := [3] })], 5, 1⟩

theorem remove_builder_undefined_null_register_witness :
    c3Final.registers_size = c3Code.registers_size + 1 ∧
    (∃ cid insnsTail,
      c3Final.insns
        = (cid, mkConst4 (c3Code.registers_size - c3Code.ins_size) 0)
          :: insnsTail ∧
      insnsTail.map Prod.fst
        = (c3Code.insns.map Prod.fst).filter
            fun j => decide (j ∉ ([] : List Nat))) ∧
    (∀ i idx, (i, idx) ∈ [((0 : Nat), (0 : Nat))] →
      ∃ v, alookup c3Final.insns i = some v ∧
        v.srcs[idx]? = some (c3Code.registers_size - c3Code.ins_size)) ∧
    (∃ code1, treat_undefined_fields c3Code [(0, 0)] []
      = some (code1,
        ([] : List Replacement).map
            (shiftReplacement (c3Code.registers_size - c3Code.ins_size))
          ++ [((0 : Nat), (0 : Nat))].map fun u =>
            (u.1, u.2, c3Code.registers_size - c3Code.ins_size))) :=
  remove_builder_undefined_null_register c3Method c3Builder c3Builder
    c3Fsetters c3Fgetters c3Code [] [(0, 0)] [] c3Final rfl (by decide)
    (by decide) (by decide) (by decide)
